import Mathlib

/-!
# DocuNest — verification of the envelope-encryption engine and download authorization guard

Shallow embedding of the DocuNest backend (Node.js/Express) core:

* `src/backend/utils/encryptFile.js` (shipped inside `ENV_SETUP.md` in the pack) — `encryptFile`
* `src/backend/utils/decryptFile.js` — `decryptFile`
* `src/backend/config/keys.js` — `getMasterKey`, `generateFileKey`, `generateIV`
* `src/backend/routes/fileRoutes.js` — `GET /:id/download` (account-PIN-only variant)
* `src/backend/routes/searchRoutes.js` (second document in the pack) — `GET /:id/download`
  (per-file PIN variant), `GET /`, `GET /:id`
* `src/backend/models/userModel.js` — `User.prototype.comparePIN`

Bytes are `Nat`s (`< 256` where it matters); Node `Buffer`s are `List Nat`.
Node's `crypto` library primitives that are external to the repository are modelled
as follows: SHA-256 is implemented concretely (FIPS 180-4); the AES-256 block
cipher inside `aes-256-cbc` is a parameter (`BlockCipher`) carrying exactly the
properties the library guarantees (a length-preserving inverse pair on byte
blocks); `bcrypt.compare` is a Boolean-valued parameter.  CBC chaining, PKCS#7
padding, base64 and hex codecs — the parts of `aes-256-cbc`/`Buffer` behaviour
that the repository's correctness actually depends on — are implemented concretely.
-/

/-! ## Bytes and byte lists -/

/-- All entries of the list are bytes (`< 256`). -/
def ByteOk (l : List Nat) : Prop := ∀ x ∈ l, x < 256

instance : DecidablePred ByteOk := fun l => List.decidableBAll _ l

/-- Pointwise XOR of two byte lists (truncates to the shorter, as Node's
block-level XOR always acts on equal-length 16-byte blocks). -/
def xorBytes (a b : List Nat) : List Nat := List.zipWith (fun x y => x ^^^ y) a b

/-- Split a list into chunks of `n + 1` elements (last chunk may be shorter). -/
def chunks (n : Nat) : List Nat → List (List Nat)
  | [] => []
  | x :: xs => (x :: xs).take (n + 1) :: chunks n ((x :: xs).drop (n + 1))
termination_by l => l.length
decreasing_by simp [List.length_drop]; omega

/-! ## SHA-256 (FIPS 180-4), as provided by Node's `crypto.createHash('sha256')`

The digest function is external library code; it is implemented here concretely
so that the key-derivation and wrapping-IV claims are settled against a real,
executable 256-bit digest. All 32-bit words are `Nat`s reduced mod `2 ^ 32`. -/

/-- Right rotation of a 32-bit word. -/
def rotr32 (n w : Nat) : Nat := ((w >>> n) ||| (w <<< (32 - n))) % 2 ^ 32

/-- Right shift of a 32-bit word. -/
def shr32 (n w : Nat) : Nat := w >>> n

def shaCh (x y z : Nat) : Nat := (x &&& y) ^^^ ((2 ^ 32 - 1 - x % 2 ^ 32) &&& z)

def shaMaj (x y z : Nat) : Nat := (x &&& y) ^^^ (x &&& z) ^^^ (y &&& z)

def bigSigma0 (x : Nat) : Nat := rotr32 2 x ^^^ rotr32 13 x ^^^ rotr32 22 x

def bigSigma1 (x : Nat) : Nat := rotr32 6 x ^^^ rotr32 11 x ^^^ rotr32 25 x

def smallSigma0 (x : Nat) : Nat := rotr32 7 x ^^^ rotr32 18 x ^^^ shr32 3 x

def smallSigma1 (x : Nat) : Nat := rotr32 17 x ^^^ rotr32 19 x ^^^ shr32 10 x

/-- The 64 SHA-256 round constants (FIPS 180-4 §4.2.2), in decimal. -/
def shaK : List Nat :=
  [1116352408, 1899447441, 3049323471, 3921009573, 961987163,
   1508970993, 2453635748, 2870763221, 3624381080, 310598401,
   607225278, 1426881987, 1925078388, 2162078206, 2614888103,
   3248222580, 3835390401, 4022224774, 264347078, 604807628,
   770255983, 1249150122, 1555081692, 1996064986, 2554220882,
   2821834349, 2952996808, 3210313671, 3336571891, 3584528711,
   113926993, 338241895, 666307205, 773529912, 1294757372,
   1396182291, 1695183700, 1986661051, 2177026350, 2456956037,
   2730485921, 2820302411, 3259730800, 3345764771, 3516065817,
   3600352804, 4094571909, 275423344, 430227734, 506948616,
   659060556, 883997877, 958139571, 1322822218, 1537002063,
   1747873779, 1955562222, 2024104815, 2227730452, 2361852424,
   2428436474, 2756734187, 3204031479, 3329325298]

/-- SHA-256 working state: eight 32-bit registers. -/
structure SHAState where
  a : Nat
  b : Nat
  c : Nat
  d : Nat
  e : Nat
  f : Nat
  g : Nat
  h : Nat

/-- Initial SHA-256 hash value (FIPS 180-4 §5.3.3), in decimal. -/
def shaInit : SHAState :=
  ⟨1779033703, 3144134277, 1013904242, 2773480762,
   1359893119, 2600822924, 528734635, 1541459225⟩

/-- Big-endian 32-bit words from a 64-byte block. -/
def toWords32 : List Nat → List Nat
  | b0 :: b1 :: b2 :: b3 :: rest =>
    (b0 * 2 ^ 24 + b1 * 2 ^ 16 + b2 * 2 ^ 8 + b3) :: toWords32 rest
  | _ => []

/-- Extend the 16 block words to the 64-entry message schedule. -/
def messageSchedule (w16 : List Nat) : List Nat :=
  (List.range 48).foldl
    (fun W t =>
      W ++ [(smallSigma1 (W.getD (t + 14) 0) + W.getD (t + 9) 0 +
             smallSigma0 (W.getD (t + 1) 0) + W.getD t 0) % 2 ^ 32])
    w16

/-- One SHA-256 compression step (round `t`). -/
def shaRound (W : List Nat) (s : SHAState) (t : Nat) : SHAState :=
  let T1 := (s.h + bigSigma1 s.e + shaCh s.e s.f s.g + shaK.getD t 0 + W.getD t 0) % 2 ^ 32
  let T2 := (bigSigma0 s.a + shaMaj s.a s.b s.c) % 2 ^ 32
  ⟨(T1 + T2) % 2 ^ 32, s.a, s.b, s.c, (s.d + T1) % 2 ^ 32, s.e, s.f, s.g⟩

/-- Compress one 64-byte block into the running state. -/
def compressBlock (st : SHAState) (block : List Nat) : SHAState :=
  let W := messageSchedule (toWords32 block)
  let r := (List.range 64).foldl (shaRound W) st
  ⟨(st.a + r.a) % 2 ^ 32, (st.b + r.b) % 2 ^ 32, (st.c + r.c) % 2 ^ 32,
   (st.d + r.d) % 2 ^ 32, (st.e + r.e) % 2 ^ 32, (st.f + r.f) % 2 ^ 32,
   (st.g + r.g) % 2 ^ 32, (st.h + r.h) % 2 ^ 32⟩

/-- Big-endian 8-byte encoding of a 64-bit length field. -/
def toBytes8 (w : Nat) : List Nat :=
  [w / 2 ^ 56 % 256, w / 2 ^ 48 % 256, w / 2 ^ 40 % 256, w / 2 ^ 32 % 256,
   w / 2 ^ 24 % 256, w / 2 ^ 16 % 256, w / 2 ^ 8 % 256, w % 256]

/-- Big-endian 4-byte encoding of a 32-bit word. -/
def toBytes4 (w : Nat) : List Nat :=
  [w / 2 ^ 24 % 256, w / 2 ^ 16 % 256, w / 2 ^ 8 % 256, w % 256]

/-- SHA-256 message padding: `0x80`, zeros to 56 mod 64, then the 64-bit bit length. -/
def shaPad (msg : List Nat) : List Nat :=
  msg ++ [0x80] ++
    List.replicate ((64 + 56 - (msg.length + 1) % 64) % 64) 0 ++
    toBytes8 (msg.length * 8)

/-- Serialize the final state as the 32-byte big-endian digest. -/
def shaSerialize (st : SHAState) : List Nat :=
  toBytes4 st.a ++ toBytes4 st.b ++ toBytes4 st.c ++ toBytes4 st.d ++
  toBytes4 st.e ++ toBytes4 st.f ++ toBytes4 st.g ++ toBytes4 st.h

/-- SHA-256 of a byte sequence (the value of
`crypto.createHash('sha256').update(m).digest()`). -/
def sha256 (msg : List Nat) : List Nat :=
  shaSerialize ((chunks 63 (shaPad msg)).foldl compressBlock shaInit)

/-! ## Base64 and hex codecs (Node `Buffer.prototype.toString('base64')`,
`Buffer.from(_, 'base64')`, `Buffer.from(_, 'hex')`)

Character strings are byte lists of character codes. -/

/-- The base64 alphabet: sextet value to character code. -/
def b64char (i : Nat) : Nat :=
  if i < 26 then 65 + i
  else if i < 52 then 71 + i
  else if i < 62 then i - 4
  else if i = 62 then 43
  else 47

/-- Character code back to sextet value (0 for characters outside the alphabet,
matching Node's lenient decoder on the strings this system produces). -/
def b64val (c : Nat) : Nat :=
  if 65 ≤ c ∧ c ≤ 90 then c - 65
  else if 97 ≤ c ∧ c ≤ 122 then c - 71
  else if 48 ≤ c ∧ c ≤ 57 then c + 4
  else if c = 43 then 62
  else if c = 47 then 63
  else 0

/-- `Buffer.prototype.toString('base64')`: standard base64 with `=` padding. -/
def b64encode : List Nat → List Nat
  | [] => []
  | [a] => [b64char (a / 4), b64char (a % 4 * 16), 61, 61]
  | [a, b] => [b64char (a / 4), b64char (a % 4 * 16 + b / 16), b64char (b % 16 * 4), 61]
  | a :: b :: c :: rest =>
    b64char (a / 4) :: b64char (a % 4 * 16 + b / 16) ::
    b64char (b % 16 * 4 + c / 64) :: b64char (c % 64) :: b64encode rest

/-- `Buffer.from(_, 'base64')` on well-formed base64 text. -/
def b64decode : List Nat → List Nat
  | w :: x :: y :: z :: rest =>
    if y = 61 then [b64val w * 4 + b64val x / 16]
    else if z = 61 then
      [b64val w * 4 + b64val x / 16, b64val x % 16 * 16 + b64val y / 4]
    else
      (b64val w * 4 + b64val x / 16) :: (b64val x % 16 * 16 + b64val y / 4) ::
      (b64val y % 4 * 64 + b64val z) :: b64decode rest
  | _ => []

/-- Hex digit value of a character code (`0-9`, `a-f`, `A-F`). -/
def hexVal (c : Nat) : Option Nat :=
  if 48 ≤ c ∧ c ≤ 57 then some (c - 48)
  else if 97 ≤ c ∧ c ≤ 102 then some (c - 87)
  else if 65 ≤ c ∧ c ≤ 70 then some (c - 55)
  else none

/-- `Buffer.from(str, 'hex')`: decodes pairs of hex digits, silently truncating
at the first invalid pair (Node does not reject non-hex input). -/
def nodeHexDecode : List Nat → List Nat
  | c1 :: c2 :: rest =>
    match hexVal c1, hexVal c2 with
    | some hi, some lo => (hi * 16 + lo) :: nodeHexDecode rest
    | _, _ => []
  | _ => []

/-! ## AES-256-CBC with PKCS#7 padding (Node `crypto.createCipheriv('aes-256-cbc', k, iv)`)

The AES-256 block permutation itself lives inside Node's crypto library; the
repository only relies on it being an inverse pair of 16-byte-block maps.  It is
therefore a parameter.  CBC chaining and PKCS#7 padding — the structure the
round-trip property actually rests on — are concrete. -/

/-- The AES-256 block primitive used by `aes-256-cbc`: for each key, a pair of
mutually inverse maps on 16-byte blocks. `enc`/`dec` take the key and one block. -/
structure BlockCipher where
  enc : List Nat → List Nat → List Nat
  dec : List Nat → List Nat → List Nat
  enc_length : ∀ k b, b.length = 16 → ByteOk b → (enc k b).length = 16
  enc_byteOk : ∀ k b, b.length = 16 → ByteOk b → ByteOk (enc k b)
  dec_enc : ∀ k b, b.length = 16 → ByteOk b → dec k (enc k b) = b

/-- PKCS#7 padding to a multiple of 16 bytes (always adds 1–16 bytes). -/
def pkcs7pad (data : List Nat) : List Nat :=
  data ++ List.replicate (16 - data.length % 16) (16 - data.length % 16)

/-- PKCS#7 unpadding; `none` models the `bad decrypt` padding error. -/
def pkcs7unpad (l : List Nat) : Option (List Nat) :=
  match l.getLast? with
  | none => none
  | some p =>
    if 1 ≤ p ∧ p ≤ 16 ∧ p ≤ l.length ∧ (l.drop (l.length - p)).all (· = p) then
      some (l.take (l.length - p))
    else none

/-- CBC encryption over a list of 16-byte blocks. -/
def cbcEncBlocks (C : BlockCipher) (k : List Nat) : List Nat → List (List Nat) → List (List Nat)
  | _, [] => []
  | iv, b :: bs =>
    let c := C.enc k (xorBytes iv b)
    c :: cbcEncBlocks C k c bs

/-- CBC decryption over a list of 16-byte blocks. -/
def cbcDecBlocks (C : BlockCipher) (k : List Nat) : List Nat → List (List Nat) → List (List Nat)
  | _, [] => []
  | iv, c :: cs => xorBytes iv (C.dec k c) :: cbcDecBlocks C k c cs

/-- `Buffer.concat([cipher.update(buf), cipher.final()])` for
`crypto.createCipheriv('aes-256-cbc', key, iv)`: PKCS#7 pad, then CBC. -/
def cbcEncrypt (C : BlockCipher) (key iv data : List Nat) : List Nat :=
  (cbcEncBlocks C key iv (chunks 15 (pkcs7pad data))).flatten

/-- `Buffer.concat([decipher.update(buf), decipher.final()])` for
`crypto.createDecipheriv('aes-256-cbc', key, iv)`: CBC, then strip PKCS#7;
`none` models the exceptions thrown on ragged input or bad padding. -/
def cbcDecrypt (C : BlockCipher) (key iv data : List Nat) : Option (List Nat) :=
  if data.length % 16 = 0 ∧ data ≠ [] then
    pkcs7unpad (cbcDecBlocks C key iv (chunks 15 data)).flatten
  else none

/-! ## The envelope encryption engine

`encryptFile` from `utils/encryptFile.js` (the copy shipped in `ENV_SETUP.md`),
`decryptFile` from `utils/decryptFile.js`, `getMasterKey` from `config/keys.js`.
The fresh randomness of `generateFileKey()` (32 bytes) and `generateIV()`
(16 bytes) is passed in as the `fileKey`/`fileIV` arguments. -/

/-- Character codes of an ASCII label (`Buffer.from(label)`). -/
def strBytes (s : String) : List Nat := s.data.map Char.toNat

/-- The key-wrapping IV as derived in `encryptFile` (encryptFile.js Step 3):
`sha256(masterKey ‖ "key-encryption-iv")` truncated to 16 bytes. -/
def encryptKeyEncryptionIV (masterKey : List Nat) : List Nat :=
  (sha256 (masterKey ++ strBytes "key-encryption-iv")).take 16

/-- The IV-wrapping IV as derived in `encryptFile` (encryptFile.js Step 3). -/
def encryptIVEncryptionIV (masterKey : List Nat) : List Nat :=
  (sha256 (masterKey ++ strBytes "iv-encryption-iv")).take 16

/-- The key-wrapping IV as re-derived in `decryptFile` (decryptFile.js Step 1). -/
def decryptKeyEncryptionIV (masterKey : List Nat) : List Nat :=
  (sha256 (masterKey ++ strBytes "key-encryption-iv")).take 16

/-- The IV-wrapping IV as re-derived in `decryptFile` (decryptFile.js Step 1). -/
def decryptIVEncryptionIV (masterKey : List Nat) : List Nat :=
  (sha256 (masterKey ++ strBytes "iv-encryption-iv")).take 16

/-- Return value of `encryptFile`: `encryptedKey`/`encryptedIV` are base64 text. -/
structure EncryptResult where
  encryptedFile : List Nat
  encryptedKey : List Nat
  encryptedIV : List Nat

/-- `encryptFile(fileBuffer)` from `utils/encryptFile.js`, with the randomness
(`generateFileKey()`, `generateIV()`) and `getMasterKey()` passed as arguments. -/
def encryptFile (C : BlockCipher) (masterKey fileKey fileIV fileBuffer : List Nat) :
    EncryptResult :=
  let encryptedFile := cbcEncrypt C fileKey fileIV fileBuffer
  let keyEncryptionIV := encryptKeyEncryptionIV masterKey
  let ivEncryptionIV := encryptIVEncryptionIV masterKey
  let encryptedKey := cbcEncrypt C masterKey keyEncryptionIV fileKey
  let encryptedIV := cbcEncrypt C masterKey ivEncryptionIV fileIV
  ⟨encryptedFile, b64encode encryptedKey, b64encode encryptedIV⟩

/-- `decryptFile(encryptedFileBuffer, encryptedKeyBase64, encryptedIVBase64)`
from `utils/decryptFile.js`; `none` models the wrapped `throw`.  It reads no
state beyond its arguments: the master key and the stored triple. -/
def decryptFile (C : BlockCipher)
    (masterKey encryptedFileBuffer encryptedKeyBase64 encryptedIVBase64 : List Nat) :
    Option (List Nat) :=
  let keyEncryptionIV := decryptKeyEncryptionIV masterKey
  let ivEncryptionIV := decryptIVEncryptionIV masterKey
  match cbcDecrypt C masterKey ivEncryptionIV (b64decode encryptedIVBase64) with
  | none => none
  | some decryptedFileIV =>
    match cbcDecrypt C masterKey keyEncryptionIV (b64decode encryptedKeyBase64) with
    | none => none
    | some decryptedFileKey =>
      cbcDecrypt C decryptedFileKey decryptedFileIV encryptedFileBuffer

/-- `getMasterKey()` from `config/keys.js`: `none` models the throw on a
missing/empty `ENCRYPT_KEY`; a 64-character secret is passed to
`Buffer.from(key, 'hex')` (without validating that it is hex), any other
length is digested with SHA-256. -/
def getMasterKey (key : List Nat) : Option (List Nat) :=
  if key = [] then none
  else if key.length = 64 then some (nodeHexDecode key)
  else some (sha256 key)

/-! ## Documents, users, and the download authorization guard

`Doc` carries the fields of the `Document` model that the routes read (the
per-file-PIN generation adds `displayName`/`pinHash` on top of
`models/documentModel.js`).  `User` carries what `routes` read of
`models/userModel.js`.  `bcrypt.compare` (library code) is the Boolean
parameter `bcmp`; the authenticated requester id produced by
`middleware/authMiddleware.js` is the `reqUserId` argument; the database and
the blob store are the `docs`/`users`/`fs` arguments. -/

/-- JavaScript truthiness of an optional string (`undefined`, `null` and `""`
are falsy): models checks like `if (!pin)` and `displayName || original`. -/
def jsStrTruthy : Option String → Bool
  | none => false
  | some s => !s.isEmpty

/-- A row of the `documents` table. -/
structure Doc where
  id : Nat
  userId : Nat
  filename : String
  originalFilename : String
  displayName : Option String
  fileType : String
  fileSize : Nat
  category : String
  tags : String
  encryptedKey : List Nat
  encryptedIV : List Nat
  filePath : String
  requiresPIN : Bool
  pinHash : Option String
  uploadedAt : Nat

/-- A row of the `users` table (the fields the download routes read). -/
structure User where
  id : Nat
  pinHash : Option String

/-- `User.prototype.comparePIN` from `models/userModel.js`: `false` when no
account PIN hash is set, otherwise `bcrypt.compare(candidatePIN, pinHash)`. -/
def comparePIN (bcmp : String → String → Bool) (u : User) (candidatePIN : String) : Bool :=
  if !jsStrTruthy u.pinHash then false
  else bcmp candidatePIN (u.pinHash.getD "")

/-- Outcome of a download request: the decrypted bytes (200), or a
`res.status(s).json({ message })` rejection. -/
inductive DownloadResult
  | file (body : List Nat)
  | reject (status : Nat) (message : String)
deriving DecidableEq

/-- The tail of both download handlers once authorization has passed: read the
blob (`404` if missing on disk), decrypt, send.  A `decryptFile` throw lands in
the route's `catch`/`next(error)`; the catch-all error middleware
(`middleware/errorHandler.js`, present in the repository but not in this pack)
is modelled from the spec: a `DecryptionError` is "surfaced as a server-side
failure, distinct from authorization denial", i.e. a 500. -/
def downloadServeFile (C : BlockCipher) (masterKey : List Nat)
    (fs : String → Option (List Nat)) (document : Doc) : DownloadResult :=
  match fs document.filePath with
  | none => .reject 404 "File not found on server"
  | some encryptedFileBuffer =>
    match decryptFile C masterKey encryptedFileBuffer
        document.encryptedKey document.encryptedIV with
    | some decryptedFile => .file decryptedFile
    | none => .reject 500 "File decryption failed"

/-- `GET /:id/download` from the per-file-PIN generation of the file router
(the second document inside `routes/searchRoutes.js` in the pack, lines
535–622): ownership-scoped lookup, PIN gate with per-file precedence and
account-level fallback, then decrypt-and-send. -/
def downloadSearchRoutes (C : BlockCipher) (bcmp : String → String → Bool)
    (masterKey : List Nat) (docs : List Doc) (users : List User)
    (fs : String → Option (List Nat)) (reqUserId docId : Nat)
    (pin : Option String) : DownloadResult :=
  match docs.find? (fun d => d.id == docId && d.userId == reqUserId) with
  | none => .reject 404 "File not found"
  | some document =>
    if document.requiresPIN then
      if !jsStrTruthy pin then .reject 403 "PIN required to download this file"
      else if jsStrTruthy document.pinHash then
        if bcmp (pin.getD "") (document.pinHash.getD "") then
          downloadServeFile C masterKey fs document
        else .reject 403 "Invalid PIN for this file"
      else
        match users.find? (fun u => u.id == reqUserId) with
        | none => .reject 403 "User not found"
        | some user =>
          if comparePIN bcmp user (pin.getD "") then
            downloadServeFile C masterKey fs document
          else .reject 403 "Invalid PIN"
    else downloadServeFile C masterKey fs document

/-- `GET /:id/download` from `routes/fileRoutes.js` (lines 351–429, the
account-PIN-only generation): ownership-scoped lookup, then the supplied PIN is
verified against the requesting user's account PIN hash only (`400` when the
user has no hash, `401` on mismatch). -/
def downloadFileRoutes (C : BlockCipher) (bcmp : String → String → Bool)
    (masterKey : List Nat) (docs : List Doc) (users : List User)
    (fs : String → Option (List Nat)) (reqUserId docId : Nat)
    (pin : Option String) : DownloadResult :=
  match docs.find? (fun d => d.id == docId && d.userId == reqUserId) with
  | none => .reject 404 "File not found"
  | some document =>
    if document.requiresPIN then
      if !jsStrTruthy pin then .reject 403 "PIN required to download this file"
      else
        match users.find? (fun u => u.id == reqUserId) with
        | none => .reject 400 "PIN not set for this user"
        | some user =>
          if !jsStrTruthy user.pinHash then .reject 400 "PIN not set for this user"
          else if comparePIN bcmp user (pin.getD "") then
            downloadServeFile C masterKey fs document
          else .reject 401 "Invalid PIN"
    else downloadServeFile C masterKey fs document

/-! ## File listing and metadata endpoints (for the non-disclosure claim)

`GET /` and `GET /:id` of both router generations run `findAll`/`findOne` with
an `attributes: { exclude: [...] }` list; the selected columns and the
`ORDER BY uploaded_at DESC` happen inside the query, so the row type returned
by the query is the public view. -/

/-- `displayName || originalFilename` (the `name` computed by the routes). -/
def jsNameOf (d : Doc) : String :=
  if jsStrTruthy d.displayName then d.displayName.getD "" else d.originalFilename

/-- Row shape returned by the per-file-PIN generation's `GET /` and `GET /:id`:
every `Document` column except `encryptedKey`, `encryptedIV`, `filePath`,
`pinHash`, plus the computed `name`. -/
structure PublicDoc where
  id : Nat
  userId : Nat
  filename : String
  originalFilename : String
  displayName : Option String
  name : String
  fileType : String
  fileSize : Nat
  category : String
  tags : String
  requiresPIN : Bool
  uploadedAt : Nat
deriving DecidableEq

/-- Row shape returned by `fileRoutes.js`'s `GET /` (lines 226–230): excludes
`encryptedKey`, `encryptedIV`, `filePath`; its generation's `Document` model
(`documentModel.js`) has no `displayName`/`pinHash` columns, so neither is
selected. -/
structure PublicDocV1 where
  id : Nat
  userId : Nat
  filename : String
  originalFilename : String
  fileType : String
  fileSize : Nat
  category : String
  tags : String
  requiresPIN : Bool
  uploadedAt : Nat
deriving DecidableEq

def toPublicDoc (d : Doc) : PublicDoc :=
  ⟨d.id, d.userId, d.filename, d.originalFilename, d.displayName, jsNameOf d,
   d.fileType, d.fileSize, d.category, d.tags, d.requiresPIN, d.uploadedAt⟩

def toPublicDocV1 (d : Doc) : PublicDocV1 :=
  ⟨d.id, d.userId, d.filename, d.originalFilename,
   d.fileType, d.fileSize, d.category, d.tags, d.requiresPIN, d.uploadedAt⟩

/-- The `whereClause` of `GET /`: always `userId`, plus `category` equality and
a `LIKE %tag%` filter when those query parameters are (truthily) present. -/
def matchesListQuery (uid : Nat) (category tag : Option String) (d : Doc) : Bool :=
  d.userId == uid &&
  (if jsStrTruthy category then d.category == category.getD "" else true) &&
  (if jsStrTruthy tag then decide ((tag.getD "").data <:+: d.tags.data) else true)

/-- Descending insertion by a `Nat` key (`ORDER BY uploaded_at DESC`). -/
def insertDescBy {α : Type} (key : α → Nat) (d : α) : List α → List α
  | [] => [d]
  | e :: es => if key e < key d then d :: e :: es else e :: insertDescBy key d es

/-- Insertion sort, descending by key (`ORDER BY uploaded_at DESC`). -/
def sortDescBy {α : Type} (key : α → Nat) : List α → List α
  | [] => []
  | d :: ds => insertDescBy key d (sortDescBy key ds)

/-- `GET /` of the per-file-PIN generation (searchRoutes.js copy, lines
381–423): owned rows matching the query, public columns, newest first. -/
def listFilesSearchRoutes (docs : List Doc) (uid : Nat)
    (category tag : Option String) : List PublicDoc :=
  sortDescBy (fun d => d.uploadedAt)
    ((docs.filter (matchesListQuery uid category tag)).map toPublicDoc)

/-- `GET /:id` of the per-file-PIN generation (searchRoutes.js copy, lines
461–491): the owned row with public columns, or a 404. -/
def getFileSearchRoutes (docs : List Doc) (uid docId : Nat) : Option PublicDoc :=
  (docs.find? (fun d => d.id == docId && d.userId == uid)).map toPublicDoc

/-- `GET /` of `fileRoutes.js` (lines 209–242). -/
def listFilesFileRoutes (docs : List Doc) (uid : Nat)
    (category tag : Option String) : List PublicDocV1 :=
  sortDescBy (fun d => d.uploadedAt)
    ((docs.filter (matchesListQuery uid category tag)).map toPublicDocV1)

/-- Two document rows that agree on everything except the key-material and
storage-location columns (`encryptedKey`, `encryptedIV`, `filePath`,
`pinHash`). -/
def SameExceptSecrets (d1 d2 : Doc) : Prop :=
  d1.id = d2.id ∧ d1.userId = d2.userId ∧ d1.filename = d2.filename ∧
  d1.originalFilename = d2.originalFilename ∧ d1.displayName = d2.displayName ∧
  d1.fileType = d2.fileType ∧ d1.fileSize = d2.fileSize ∧
  d1.category = d2.category ∧ d1.tags = d2.tags ∧
  d1.requiresPIN = d2.requiresPIN ∧ d1.uploadedAt = d2.uploadedAt

/-- The identity AES-256 block primitive used to instantiate witnesses:
a (degenerate) member of `BlockCipher`. -/
def idBlockCipher : BlockCipher where
  enc := fun _ b => b
  dec := fun _ b => b
  enc_length := fun _ _ h _ => h
  enc_byteOk := fun _ _ _ h => h
  dec_enc := fun _ _ _ _ => rfl

/-! ## Concrete fixtures used by the witnesses -/

def wMk : List Nat := List.replicate 32 0

def wFk : List Nat := List.replicate 32 7

def wFk2 : List Nat := List.replicate 32 8

def wIv : List Nat := List.range 16

def wIv2 : List Nat := List.replicate 16 1

def wBuf : List Nat := [104, 101, 108, 108, 111]

def wEnc : EncryptResult := encryptFile idBlockCipher wMk wFk wIv wBuf

def wDocFile : Doc :=
  { id := 1, userId := 10, filename := "1700-a.pdf.enc", originalFilename := "a.pdf",
    displayName := none, fileType := "pdf", fileSize := 5, category := "Other",
    tags := "work", encryptedKey := wEnc.encryptedKey, encryptedIV := wEnc.encryptedIV,
    filePath := "uploads/encrypted/1700-a.pdf.enc", requiresPIN := true,
    pinHash := some "FILEHASH", uploadedAt := 100 }

def wDocNoHash : Doc :=
  { id := 2, userId := 10, filename := "1701-b.pdf.enc", originalFilename := "b.pdf",
    displayName := none, fileType := "pdf", fileSize := 5, category := "Other",
    tags := "", encryptedKey := wEnc.encryptedKey, encryptedIV := wEnc.encryptedIV,
    filePath := "uploads/encrypted/1701-b.pdf.enc", requiresPIN := true,
    pinHash := none, uploadedAt := 101 }

def wDocFileAlt : Doc :=
  { id := 1, userId := 10, filename := "1700-a.pdf.enc", originalFilename := "a.pdf",
    displayName := none, fileType := "pdf", fileSize := 5, category := "Other",
    tags := "work", encryptedKey := [0], encryptedIV := [1],
    filePath := "elsewhere.enc", requiresPIN := true,
    pinHash := none, uploadedAt := 100 }

def wFs : String → Option (List Nat) := fun _ => some wEnc.encryptedFile

def wUserAcct : User := { id := 10, pinHash := some "ACCTHASH" }

def wUserNoPin : User := { id := 10, pinHash := none }

/-- A concrete stand-in for `bcrypt.compare`: PIN `1234` matches only the
per-file hash, PIN `9999` matches only the account hash. -/
def wBcmp : String → String → Bool := fun p h =>
  (p == "1234" && h == "FILEHASH") || (p == "9999" && h == "ACCTHASH")

def wHexKey : List Nat :=
  strBytes "00329472f9d521e9198bc74b601753daa2e7738ae4fc1f0ee4a9f6389aceeb5e"

def wPassKey : List Nat := strBytes "my-master-passphrase"

/-! ## Lemmas and claim theorems -/

theorem xorBytes_length (a b : List Nat) :
    (xorBytes a b).length = min a.length b.length := by
  simp [xorBytes]

theorem xorBytes_byteOk {a b : List Nat} (ha : ByteOk a) (hb : ByteOk b) :
    ByteOk (xorBytes a b) := by
  induction a generalizing b with
  | nil => intro x hx; simp [xorBytes] at hx
  | cons y ys ih =>
    cases b with
    | nil => intro x hx; simp [xorBytes] at hx
    | cons z zs =>
      intro x hx
      simp only [xorBytes, List.zipWith_cons_cons, List.mem_cons] at hx
      rcases hx with rfl | hx
      · have h1 : y < 256 := ha y (by simp)
        have h2 : z < 256 := hb z (by simp)
        have h8 : (256 : Nat) = 2 ^ 8 := by norm_num
        rw [h8] at h1 h2 ⊢
        exact Nat.xor_lt_two_pow h1 h2
      · exact ih (fun u hu => ha u (by simp [hu])) (fun u hu => hb u (by simp [hu])) x hx

theorem xorBytes_xorBytes_cancel {a b : List Nat} (h : a.length = b.length) :
    xorBytes a (xorBytes a b) = b := by
  induction a generalizing b with
  | nil => cases b with
    | nil => rfl
    | cons y ys => simp at h
  | cons x xs ih =>
    cases b with
    | nil => simp at h
    | cons y ys =>
      simp only [xorBytes, List.zipWith_cons_cons]
      congr 1
      · rw [← Nat.xor_assoc, Nat.xor_self, Nat.zero_xor]
      · exact ih (by simpa using h)

theorem chunks_nil (n : Nat) : chunks n [] = [] := by simp [chunks]

theorem chunks_append {n : Nat} {b : List Nat} (rest : List Nat)
    (h : b.length = n + 1) : chunks n (b ++ rest) = b :: chunks n rest := by
  cases b with
  | nil => simp at h
  | cons x xs =>
    rw [List.cons_append, chunks]
    have htake : (x :: xs ++ rest).take (n + 1) = x :: xs := by
      rw [← h]; exact List.take_left _ _
    have hdrop : (x :: xs ++ rest).drop (n + 1) = rest := by
      rw [← h]; exact List.drop_left _ _
    rw [List.cons_append] at htake hdrop
    rw [htake, hdrop]

theorem chunks_join {n : Nat} {bs : List (List Nat)}
    (h : ∀ b ∈ bs, b.length = n + 1) : chunks n bs.flatten = bs := by
  induction bs with
  | nil => simp [chunks]
  | cons b rest ih =>
    rw [List.flatten_cons, chunks_append _ (h b (by simp))]
    rw [ih (fun c hc => h c (by simp [hc]))]

theorem join_chunks (n : Nat) (l : List Nat) : (chunks n l).flatten = l := by
  induction l using chunks.induct n with
  | case1 => simp [chunks]
  | case2 x xs ih =>
    rw [chunks, List.flatten_cons, ih, List.take_append_drop]

theorem chunks_mem_length {n : Nat} :
    ∀ {l : List Nat}, (n + 1) ∣ l.length → ∀ b ∈ chunks n l, b.length = n + 1 := by
  intro l
  induction l using chunks.induct n with
  | case1 => intro _ b hb; simp [chunks] at hb
  | case2 x xs ih =>
    intro h b hb
    rw [chunks] at hb
    have hlen : n + 1 ≤ (x :: xs).length := Nat.le_of_dvd (by simp) h
    rcases List.mem_cons.mp hb with h1 | h1
    · subst h1
      simp only [List.length_cons] at hlen
      simp [List.length_take]
      omega
    · have hd : (n + 1) ∣ (List.drop (n + 1) (x :: xs)).length := by
        rw [List.length_drop]; exact Nat.dvd_sub' h (dvd_refl _)
      exact ih hd b h1

theorem chunks_mem_byteOk {n : Nat} {l : List Nat} (h : ByteOk l) :
    ∀ b ∈ chunks n l, ByteOk b := by
  intro b hb x hx
  apply h
  have := join_chunks n l
  rw [← this]
  exact List.mem_flatten.mpr ⟨b, hb, hx⟩

theorem shaSerialize_length (st : SHAState) : (shaSerialize st).length = 32 := by
  simp [shaSerialize, toBytes4]

theorem shaSerialize_byteOk (st : SHAState) : ByteOk (shaSerialize st) := by
  intro x hx
  simp only [shaSerialize, toBytes4, List.mem_append, List.mem_cons,
    List.not_mem_nil, or_false] at hx
  omega

theorem sha256_length (msg : List Nat) : (sha256 msg).length = 32 :=
  shaSerialize_length _

theorem sha256_byteOk (msg : List Nat) : ByteOk (sha256 msg) :=
  shaSerialize_byteOk _

theorem b64val_b64char {i : Nat} (h : i < 64) : b64val (b64char i) = i := by
  revert h
  revert i
  decide

theorem b64char_ne_61 {i : Nat} (h : i < 64) : b64char i ≠ 61 := by
  revert h
  revert i
  decide

theorem b64decode_b64encode {l : List Nat} (h : ByteOk l) :
    b64decode (b64encode l) = l := by
  induction l using b64encode.induct with
  | case1 => rfl
  | case2 a =>
    have ha : a < 256 := h a (by simp)
    rw [b64encode, b64decode]
    rw [if_pos rfl]
    rw [b64val_b64char (by omega), b64val_b64char (by omega)]
    congr 1
    omega
  | case3 a b =>
    have ha : a < 256 := h a (by simp)
    have hb : b < 256 := h b (by simp)
    rw [b64encode, b64decode]
    rw [if_neg (b64char_ne_61 (by omega)), if_pos rfl]
    rw [b64val_b64char (by omega), b64val_b64char (by omega),
      b64val_b64char (by omega)]
    congr 1
    · omega
    · congr 1
      omega
  | case4 a b c rest ih =>
    have ha : a < 256 := h a (by simp)
    have hb : b < 256 := h b (by simp)
    have hc : c < 256 := h c (by simp)
    rw [b64encode, b64decode]
    rw [if_neg (b64char_ne_61 (by omega)), if_neg (b64char_ne_61 (by omega))]
    rw [b64val_b64char (by omega), b64val_b64char (by omega),
      b64val_b64char (by omega), b64val_b64char (by omega)]
    rw [ih (fun u hu => h u (by simp [hu]))]
    congr 1
    · omega
    · congr 1
      · omega
      · congr 1
        omega

/-- On strings made entirely of hex digits the Node decoder consumes
everything: two characters per byte. -/
theorem nodeHexDecode_length {l : List Nat} (hall : ∀ c ∈ l, (hexVal c).isSome)
    (heven : l.length % 2 = 0) : (nodeHexDecode l).length = l.length / 2 := by
  induction l using nodeHexDecode.induct with
  | case1 c1 c2 rest hi lo hlo hhi ih =>
    have e : nodeHexDecode (c1 :: c2 :: rest) = (hi * 16 + lo) :: nodeHexDecode rest := by
      simp [nodeHexDecode, hhi, hlo]
    rw [e]
    simp only [List.length_cons]
    rw [ih (fun c hc => hall c (by simp [hc])) (by simp at heven ⊢; omega)]
    simp only [List.length_cons] at heven ⊢
    omega
  | case2 c1 c2 rest h12 =>
    exfalso
    have h1 := hall c1 (by simp)
    have h2 := hall c2 (by simp)
    rcases Option.isSome_iff_exists.mp h1 with ⟨hi, hhi⟩
    rcases Option.isSome_iff_exists.mp h2 with ⟨lo, hlo⟩
    exact h12 hi lo hhi hlo
  | case3 t ht =>
    cases t with
    | nil => rfl
    | cons c t2 =>
      cases t2 with
      | nil => simp at heven
      | cons c2 t3 => exact absurd rfl (ht c c2 t3)

theorem pkcs7pad_length (data : List Nat) :
    (pkcs7pad data).length = data.length + (16 - data.length % 16) := by
  simp [pkcs7pad]

theorem pkcs7pad_length_mod (data : List Nat) : (pkcs7pad data).length % 16 = 0 := by
  rw [pkcs7pad_length]
  omega

theorem pkcs7pad_ne_nil (data : List Nat) : pkcs7pad data ≠ [] := by
  intro h
  have := congrArg List.length h
  rw [pkcs7pad_length] at this
  simp at this
  omega

theorem pkcs7pad_byteOk {data : List Nat} (h : ByteOk data) : ByteOk (pkcs7pad data) := by
  intro x hx
  rcases List.mem_append.mp hx with h1 | h1
  · exact h x h1
  · have := List.eq_of_mem_replicate h1
    omega

theorem pkcs7unpad_pkcs7pad (data : List Nat) :
    pkcs7unpad (pkcs7pad data) = some data := by
  have hp : 1 ≤ 16 - data.length % 16 ∧ 16 - data.length % 16 ≤ 16 := by omega
  have hlen := pkcs7pad_length data
  have hlast : (pkcs7pad data).getLast? = some (16 - data.length % 16) := by
    rw [pkcs7pad, List.getLast?_append_of_ne_nil]
    · rw [List.getLast?_replicate]
      simp only [if_neg (by omega : ¬(16 - data.length % 16 = 0))]
    · intro hc
      have := congrArg List.length hc
      simp at this
      omega
  have hdrop : (pkcs7pad data).drop ((pkcs7pad data).length - (16 - data.length % 16)) =
      List.replicate (16 - data.length % 16) (16 - data.length % 16) := by
    rw [hlen]
    rw [show data.length + (16 - data.length % 16) - (16 - data.length % 16) =
      data.length by omega]
    rw [pkcs7pad, List.drop_append_of_le_length (le_refl _), List.drop_length,
      List.nil_append]
  have htake : (pkcs7pad data).take ((pkcs7pad data).length - (16 - data.length % 16)) =
      data := by
    rw [hlen]
    rw [show data.length + (16 - data.length % 16) - (16 - data.length % 16) =
      data.length by omega]
    rw [pkcs7pad]
    exact List.take_left _ _
  simp only [pkcs7unpad, hlast]
  rw [if_pos ⟨hp.1, hp.2, by rw [hlen]; omega,
    by rw [hdrop]; simp [List.all_eq_true, List.eq_of_mem_replicate]⟩]
  rw [htake]

theorem flatten_length_uniform {n : Nat} {bs : List (List Nat)}
    (h : ∀ b ∈ bs, b.length = n) : bs.flatten.length = n * bs.length := by
  induction bs with
  | nil => simp
  | cons b rest ih =>
    simp only [List.flatten_cons, List.length_append, List.length_cons]
    rw [h b (by simp), ih (fun c hc => h c (by simp [hc]))]
    ring

theorem cbcEncBlocks_props (C : BlockCipher) (k : List Nat) :
    ∀ (bs : List (List Nat)) (iv : List Nat), iv.length = 16 → ByteOk iv →
      (∀ b ∈ bs, b.length = 16 ∧ ByteOk b) →
      ∀ c ∈ cbcEncBlocks C k iv bs, c.length = 16 ∧ ByteOk c := by
  intro bs
  induction bs with
  | nil => intro iv _ _ _ c hc; simp [cbcEncBlocks] at hc
  | cons b rest ih =>
    intro iv hivl hivB hbs c hc
    have hb := hbs b (by simp)
    have hxl : (xorBytes iv b).length = 16 := by
      rw [xorBytes_length, hivl, hb.1]; simp
    have hxB : ByteOk (xorBytes iv b) := xorBytes_byteOk hivB hb.2
    have hcl : (C.enc k (xorBytes iv b)).length = 16 := C.enc_length k _ hxl hxB
    have hcB : ByteOk (C.enc k (xorBytes iv b)) := C.enc_byteOk k _ hxl hxB
    simp only [cbcEncBlocks, List.mem_cons] at hc
    rcases hc with rfl | hc
    · exact ⟨hcl, hcB⟩
    · exact ih _ hcl hcB (fun b' hb' => hbs b' (by simp [hb'])) c hc

theorem cbcDecBlocks_cbcEncBlocks (C : BlockCipher) (k : List Nat) :
    ∀ (bs : List (List Nat)) (iv : List Nat), iv.length = 16 → ByteOk iv →
      (∀ b ∈ bs, b.length = 16 ∧ ByteOk b) →
      cbcDecBlocks C k iv (cbcEncBlocks C k iv bs) = bs := by
  intro bs
  induction bs with
  | nil => intro iv _ _ _; simp [cbcEncBlocks, cbcDecBlocks]
  | cons b rest ih =>
    intro iv hivl hivB hbs
    have hb := hbs b (by simp)
    have hxl : (xorBytes iv b).length = 16 := by
      rw [xorBytes_length, hivl, hb.1]; simp
    have hxB : ByteOk (xorBytes iv b) := xorBytes_byteOk hivB hb.2
    simp only [cbcEncBlocks, cbcDecBlocks]
    rw [C.dec_enc k _ hxl hxB]
    rw [xorBytes_xorBytes_cancel (by rw [hivl, hb.1])]
    rw [ih _ (C.enc_length k _ hxl hxB) (C.enc_byteOk k _ hxl hxB)
      (fun b' hb' => hbs b' (by simp [hb']))]

theorem cbcEncrypt_length (C : BlockCipher) {k iv data : List Nat}
    (hivl : iv.length = 16) (hivB : ByteOk iv) (hdB : ByteOk data) :
    (cbcEncrypt C k iv data).length = (pkcs7pad data).length := by
  have hdvd : (15 + 1) ∣ (pkcs7pad data).length := by
    have := pkcs7pad_length_mod data
    omega
  have hblocks : ∀ b ∈ chunks 15 (pkcs7pad data), b.length = 16 ∧ ByteOk b :=
    fun b hb => ⟨chunks_mem_length hdvd b hb,
      chunks_mem_byteOk (pkcs7pad_byteOk hdB) b hb⟩
  have henc := cbcEncBlocks_props C k (chunks 15 (pkcs7pad data)) iv hivl hivB hblocks
  have h1 : (cbcEncrypt C k iv data).length =
      16 * (cbcEncBlocks C k iv (chunks 15 (pkcs7pad data))).length :=
    flatten_length_uniform (fun b hb => (henc b hb).1)
  have h2 : ∀ (bs : List (List Nat)) (iv' : List Nat),
      (cbcEncBlocks C k iv' bs).length = bs.length := by
    intro bs
    induction bs with
    | nil => intro iv'; rfl
    | cons b rest ih => intro iv'; simp [cbcEncBlocks, ih]
  have h3 : (pkcs7pad data).length = 16 * (chunks 15 (pkcs7pad data)).length := by
    have := flatten_length_uniform (n := 16) (fun b hb => chunks_mem_length hdvd b hb)
    rw [join_chunks] at this
    exact this
  rw [h1, h2, ← h3]

theorem cbcEncrypt_byteOk (C : BlockCipher) {k iv data : List Nat}
    (hivl : iv.length = 16) (hivB : ByteOk iv) (hdB : ByteOk data) :
    ByteOk (cbcEncrypt C k iv data) := by
  have hdvd : (15 + 1) ∣ (pkcs7pad data).length := by
    have := pkcs7pad_length_mod data
    omega
  have hblocks : ∀ b ∈ chunks 15 (pkcs7pad data), b.length = 16 ∧ ByteOk b :=
    fun b hb => ⟨chunks_mem_length hdvd b hb,
      chunks_mem_byteOk (pkcs7pad_byteOk hdB) b hb⟩
  intro x hx
  rcases List.mem_flatten.mp hx with ⟨c, hc, hxc⟩
  exact (cbcEncBlocks_props C k _ iv hivl hivB hblocks c hc).2 x hxc

theorem cbcDecrypt_cbcEncrypt (C : BlockCipher) {k iv data : List Nat}
    (hivl : iv.length = 16) (hivB : ByteOk iv) (hdB : ByteOk data) :
    cbcDecrypt C k iv (cbcEncrypt C k iv data) = some data := by
  have hdvd : (15 + 1) ∣ (pkcs7pad data).length := by
    have := pkcs7pad_length_mod data
    omega
  have hblocks : ∀ b ∈ chunks 15 (pkcs7pad data), b.length = 16 ∧ ByteOk b :=
    fun b hb => ⟨chunks_mem_length hdvd b hb,
      chunks_mem_byteOk (pkcs7pad_byteOk hdB) b hb⟩
  have henc := cbcEncBlocks_props C k (chunks 15 (pkcs7pad data)) iv hivl hivB hblocks
  have hlen := cbcEncrypt_length C hivl hivB hdB (k := k)
  have hmod : (cbcEncrypt C k iv data).length % 16 = 0 := by
    rw [hlen]; exact pkcs7pad_length_mod data
  have hne : cbcEncrypt C k iv data ≠ [] := by
    intro hc
    have := congrArg List.length hc
    rw [hlen] at this
    exact pkcs7pad_ne_nil data (List.length_eq_zero.mp (by simpa using this))
  rw [cbcDecrypt, if_pos ⟨hmod, hne⟩]
  rw [cbcEncrypt]
  rw [chunks_join (fun b hb => (henc b hb).1)]
  rw [cbcDecBlocks_cbcEncBlocks C k _ iv hivl hivB hblocks]
  rw [join_chunks]
  exact pkcs7unpad_pkcs7pad data

theorem encryptKeyEncryptionIV_length (mk : List Nat) :
    (encryptKeyEncryptionIV mk).length = 16 := by
  simp [encryptKeyEncryptionIV, List.length_take, sha256_length]

theorem encryptIVEncryptionIV_length (mk : List Nat) :
    (encryptIVEncryptionIV mk).length = 16 := by
  simp [encryptIVEncryptionIV, List.length_take, sha256_length]

theorem encryptKeyEncryptionIV_byteOk (mk : List Nat) :
    ByteOk (encryptKeyEncryptionIV mk) := fun x hx =>
  sha256_byteOk _ x (List.take_subset _ _ hx)

theorem encryptIVEncryptionIV_byteOk (mk : List Nat) :
    ByteOk (encryptIVEncryptionIV mk) := fun x hx =>
  sha256_byteOk _ x (List.take_subset _ _ hx)

theorem xorBytes_right_involutive {a h : List Nat} (hl : a.length = h.length) :
    xorBytes (xorBytes a h) h = a := by
  induction a generalizing h with
  | nil => cases h with
    | nil => rfl
    | cons y ys => simp at hl
  | cons x xs ih =>
    cases h with
    | nil => simp at hl
    | cons y ys =>
      simp only [xorBytes, List.zipWith_cons_cons]
      congr 1
      · rw [Nat.xor_assoc, Nat.xor_self, Nat.xor_zero]
      · exact ih (by simpa using hl)

theorem xorBytes_cancel_right {a b h : List Nat} (ha : a.length = h.length)
    (hb : b.length = h.length) (heq : xorBytes a h = xorBytes b h) : a = b := by
  rw [← xorBytes_right_involutive ha, heq, xorBytes_right_involutive hb]

theorem b64encode_inj {w1 w2 : List Nat} (h1 : ByteOk w1) (h2 : ByteOk w2)
    (h : b64encode w1 = b64encode w2) : w1 = w2 := by
  rw [← b64decode_b64encode h1, ← b64decode_b64encode h2, h]

theorem cbcEncrypt_inj (C : BlockCipher) {k iv d1 d2 : List Nat}
    (hivl : iv.length = 16) (hivB : ByteOk iv) (h1B : ByteOk d1) (h2B : ByteOk d2)
    (h : cbcEncrypt C k iv d1 = cbcEncrypt C k iv d2) : d1 = d2 := by
  have e1 := cbcDecrypt_cbcEncrypt C hivl hivB h1B (k := k)
  have e2 := cbcDecrypt_cbcEncrypt C hivl hivB h2B (k := k)
  rw [h] at e1
  rw [e1] at e2
  exact (Option.some.injEq _ _).mp e2

theorem cbcEncrypt_iv_ne (C : BlockCipher) {k iv1 iv2 d : List Nat}
    (h1l : iv1.length = 16) (h1B : ByteOk iv1) (h2l : iv2.length = 16)
    (h2B : ByteOk iv2) (hdB : ByteOk d) (hne : iv1 ≠ iv2) :
    cbcEncrypt C k iv1 d ≠ cbcEncrypt C k iv2 d := by
  intro heq
  apply hne
  have hpadlen : 16 ≤ (pkcs7pad d).length := by
    rw [pkcs7pad_length]; omega
  rcases List.exists_cons_of_ne_nil (pkcs7pad_ne_nil d) with ⟨x, xs, hexp⟩
  have hhead : chunks 15 (pkcs7pad d) =
      (pkcs7pad d).take 16 :: chunks 15 ((pkcs7pad d).drop 16) := by
    rw [hexp, chunks]
  have hhl : ((pkcs7pad d).take 16).length = 16 := by
    rw [List.length_take]; omega
  have hhB : ByteOk ((pkcs7pad d).take 16) :=
    fun y hy => pkcs7pad_byteOk hdB y (List.take_subset _ _ hy)
  have hx1l : (xorBytes iv1 ((pkcs7pad d).take 16)).length = 16 := by
    rw [xorBytes_length, h1l, hhl]; simp
  have hx1B : ByteOk (xorBytes iv1 ((pkcs7pad d).take 16)) := xorBytes_byteOk h1B hhB
  have hx2l : (xorBytes iv2 ((pkcs7pad d).take 16)).length = 16 := by
    rw [xorBytes_length, h2l, hhl]; simp
  have hx2B : ByteOk (xorBytes iv2 ((pkcs7pad d).take 16)) := xorBytes_byteOk h2B hhB
  have hc1l : (C.enc k (xorBytes iv1 ((pkcs7pad d).take 16))).length = 16 :=
    C.enc_length k _ hx1l hx1B
  have hc2l : (C.enc k (xorBytes iv2 ((pkcs7pad d).take 16))).length = 16 :=
    C.enc_length k _ hx2l hx2B
  have hflat : ∀ iv : List Nat,
      cbcEncrypt C k iv d = C.enc k (xorBytes iv ((pkcs7pad d).take 16)) ++
        (cbcEncBlocks C k (C.enc k (xorBytes iv ((pkcs7pad d).take 16)))
          (chunks 15 ((pkcs7pad d).drop 16))).flatten := by
    intro iv
    rw [cbcEncrypt, hhead]
    simp [cbcEncBlocks]
  rw [hflat iv1, hflat iv2] at heq
  have htk := congrArg (List.take 16) heq
  rw [List.take_left' hc1l, List.take_left' hc2l] at htk
  have hxeq : xorBytes iv1 ((pkcs7pad d).take 16) = xorBytes iv2 ((pkcs7pad d).take 16) := by
    have := congrArg (C.dec k) htk
    rw [C.dec_enc k _ hx1l hx1B, C.dec_enc k _ hx2l hx2B] at this
    exact this
  exact xorBytes_cancel_right (by rw [h1l, hhl]) (by rw [h2l, hhl]) hxeq

theorem sameExceptSecrets_toPublicDoc {d1 d2 : Doc} (h : SameExceptSecrets d1 d2) :
    toPublicDoc d1 = toPublicDoc d2 := by
  obtain ⟨h1, h2, h3, h4, h5, h6, h7, h8, h9, h10, h11⟩ := h
  simp [toPublicDoc, jsNameOf, h1, h2, h3, h4, h5, h6, h7, h8, h9, h10, h11]

theorem sameExceptSecrets_toPublicDocV1 {d1 d2 : Doc} (h : SameExceptSecrets d1 d2) :
    toPublicDocV1 d1 = toPublicDocV1 d2 := by
  obtain ⟨h1, h2, h3, h4, h5, h6, h7, h8, h9, h10, h11⟩ := h
  simp [toPublicDocV1, h1, h2, h3, h4, h6, h7, h8, h9, h10, h11]

theorem sameExceptSecrets_matches {d1 d2 : Doc} (h : SameExceptSecrets d1 d2)
    (uid : Nat) (category tag : Option String) :
    matchesListQuery uid category tag d1 = matchesListQuery uid category tag d2 := by
  obtain ⟨h1, h2, h3, h4, h5, h6, h7, h8, h9, h10, h11⟩ := h
  simp [matchesListQuery, h2, h8, h9]

theorem sameExceptSecrets_findPred {d1 d2 : Doc} (h : SameExceptSecrets d1 d2)
    (uid docId : Nat) :
    (d1.id == docId && d1.userId == uid) = (d2.id == docId && d2.userId == uid) := by
  obtain ⟨h1, h2, _⟩ := h
  rw [h1, h2]

theorem forall₂_filter_map {α β : Type} {R : α → α → Prop} {p : α → Bool}
    {f : α → β} {l1 l2 : List α} (h : List.Forall₂ R l1 l2)
    (hp : ∀ a b, R a b → p a = p b) (hf : ∀ a b, R a b → f a = f b) :
    (l1.filter p).map f = (l2.filter p).map f := by
  induction h with
  | nil => rfl
  | cons hab hrest ih =>
    rename_i a b as bs
    simp only [List.filter_cons]
    rw [hp a b hab]
    cases hpb : p b with
    | true => simp [ih, hf a b hab]
    | false => simp [ih]

theorem forall₂_find_map {α β : Type} {R : α → α → Prop} {p : α → Bool}
    {f : α → β} {l1 l2 : List α} (h : List.Forall₂ R l1 l2)
    (hp : ∀ a b, R a b → p a = p b) (hf : ∀ a b, R a b → f a = f b) :
    (l1.find? p).map f = (l2.find? p).map f := by
  induction h with
  | nil => rfl
  | cons hab hrest ih =>
    rename_i a b as bs
    rw [List.find?_cons, List.find?_cons, hp a b hab]
    cases hpb : p b with
    | true => simp [hf a b hab]
    | false => exact ih

theorem isEmpty_false_of_ne {s : String} (h : s ≠ "") : s.isEmpty = false := by
  rw [← Bool.not_eq_true]
  intro hc
  exact h ((String.isEmpty_iff s).mp hc)

theorem jsStrTruthy_some_of_ne {s : String} (h : s ≠ "") :
    jsStrTruthy (some s) = true := by
  have he : s.isEmpty = false := by
    rw [← Bool.not_eq_true]
    intro hc
    exact h ((String.isEmpty_iff s).mp hc)
  simp [jsStrTruthy, he]

theorem decryptFile_encryptFile_eq (C : BlockCipher)
    (masterKey fileKey fileIV fileBuffer : List Nat)
    (hivl : fileIV.length = 16) (hivB : ByteOk fileIV) (hfkB : ByteOk fileKey)
    (hbufB : ByteOk fileBuffer) :
    decryptFile C masterKey
      (encryptFile C masterKey fileKey fileIV fileBuffer).encryptedFile
      (encryptFile C masterKey fileKey fileIV fileBuffer).encryptedKey
      (encryptFile C masterKey fileKey fileIV fileBuffer).encryptedIV
      = some fileBuffer := by
  have hkwl := encryptKeyEncryptionIV_length masterKey
  have hkwB := encryptKeyEncryptionIV_byteOk masterKey
  have hiwl := encryptIVEncryptionIV_length masterKey
  have hiwB := encryptIVEncryptionIV_byteOk masterKey
  have eIV : decryptIVEncryptionIV masterKey = encryptIVEncryptionIV masterKey := rfl
  have eK : decryptKeyEncryptionIV masterKey = encryptKeyEncryptionIV masterKey := rfl
  simp only [encryptFile, decryptFile, eIV, eK,
    b64decode_b64encode (cbcEncrypt_byteOk C hiwl hiwB hivB),
    b64decode_b64encode (cbcEncrypt_byteOk C hkwl hkwB hfkB),
    cbcDecrypt_cbcEncrypt C hiwl hiwB hivB,
    cbcDecrypt_cbcEncrypt C hkwl hkwB hfkB]
  exact cbcDecrypt_cbcEncrypt C hivl hivB hbufB

theorem wServeFile_eq : downloadServeFile idBlockCipher wMk wFs wDocFile = .file wBuf := by
  have h := decryptFile_encryptFile_eq idBlockCipher wMk wFk wIv wBuf rfl
    (by decide) (by decide) (by decide)
  simp only [downloadServeFile, wFs, wDocFile, wEnc] at *
  rw [h]

theorem wServeFileNoHash_eq :
    downloadServeFile idBlockCipher wMk wFs wDocNoHash = .file wBuf := by
  have h := decryptFile_encryptFile_eq idBlockCipher wMk wFk wIv wBuf rfl
    (by decide) (by decide) (by decide)
  simp only [downloadServeFile, wFs, wDocNoHash, wEnc] at *
  rw [h]

/-- C1: for every byte sequence `x` (empty, single-byte and multi-block sizes
included) and a fixed master key, decrypting the triple produced by encryption
returns `x` exactly: `decryptFile` applied to `encryptFile`'s `encryptedFile`,
`encryptedKey` and `encryptedIV` yields `some x`; `decryptFile` is a pure
function of the master key and the stored triple, so the decryption reads no
state other than the MasterKey. -/
theorem C1_decrypt_encrypt_roundtrip (C : BlockCipher)
    (masterKey fileKey fileIV fileBuffer : List Nat)
    (hivl : fileIV.length = 16) (hivB : ByteOk fileIV) (hfkB : ByteOk fileKey)
    (hbufB : ByteOk fileBuffer) :
    decryptFile C masterKey
      (encryptFile C masterKey fileKey fileIV fileBuffer).encryptedFile
      (encryptFile C masterKey fileKey fileIV fileBuffer).encryptedKey
      (encryptFile C masterKey fileKey fileIV fileBuffer).encryptedIV
      = some fileBuffer :=
  decryptFile_encryptFile_eq C masterKey fileKey fileIV fileBuffer hivl hivB hfkB hbufB

/-- Witness for C1 at an empty, a 5-byte, and a 17-byte (multi-block) buffer. -/
theorem C1_decrypt_encrypt_roundtrip_witness :
    (wIv.length = 16 ∧ ByteOk wIv ∧ ByteOk wFk ∧ ByteOk wBuf ∧ ByteOk (List.range 17)) ∧
    decryptFile idBlockCipher wMk
      (encryptFile idBlockCipher wMk wFk wIv []).encryptedFile
      (encryptFile idBlockCipher wMk wFk wIv []).encryptedKey
      (encryptFile idBlockCipher wMk wFk wIv []).encryptedIV = some [] ∧
    decryptFile idBlockCipher wMk
      (encryptFile idBlockCipher wMk wFk wIv wBuf).encryptedFile
      (encryptFile idBlockCipher wMk wFk wIv wBuf).encryptedKey
      (encryptFile idBlockCipher wMk wFk wIv wBuf).encryptedIV = some wBuf ∧
    decryptFile idBlockCipher wMk
      (encryptFile idBlockCipher wMk wFk wIv (List.range 17)).encryptedFile
      (encryptFile idBlockCipher wMk wFk wIv (List.range 17)).encryptedKey
      (encryptFile idBlockCipher wMk wFk wIv (List.range 17)).encryptedIV
      = some (List.range 17) :=
  ⟨⟨rfl, by decide, by decide, by decide, by decide⟩,
   C1_decrypt_encrypt_roundtrip idBlockCipher wMk wFk wIv [] rfl (by decide)
     (by decide) (by decide),
   C1_decrypt_encrypt_roundtrip idBlockCipher wMk wFk wIv wBuf rfl (by decide)
     (by decide) (by decide),
   C1_decrypt_encrypt_roundtrip idBlockCipher wMk wFk wIv (List.range 17) rfl
     (by decide) (by decide) (by decide)⟩

/-- C7: the two 16-byte wrapping IVs are a pure, deterministic function of the
master key and the fixed labels: the values computed inside `encryptFile` and
re-derived inside `decryptFile` are byte-identical for every master key, each
equals the first 16 bytes of `sha256(masterKey ‖ label)` with label
`"key-encryption-iv"` respectively `"iv-encryption-iv"`, and each is 16 bytes. -/
theorem C7_wrapping_ivs_deterministic (mk : List Nat) :
    encryptKeyEncryptionIV mk = decryptKeyEncryptionIV mk ∧
    encryptIVEncryptionIV mk = decryptIVEncryptionIV mk ∧
    encryptKeyEncryptionIV mk = (sha256 (mk ++ strBytes "key-encryption-iv")).take 16 ∧
    encryptIVEncryptionIV mk = (sha256 (mk ++ strBytes "iv-encryption-iv")).take 16 ∧
    (encryptKeyEncryptionIV mk).length = 16 ∧
    (decryptIVEncryptionIV mk).length = 16 :=
  ⟨rfl, rfl, rfl, rfl, encryptKeyEncryptionIV_length mk, encryptIVEncryptionIV_length mk⟩

/-- C3 counterexample: a configured secret of 64 non-hex characters (64 × 'z')
is not hashed with SHA-256 — `getMasterKey` branches on length alone and hands
it to the hex decoder, which yields the empty buffer, not a 32-byte digest. -/
theorem C3_counterexample :
    (List.replicate 64 122 : List Nat).length = 64 ∧
    getMasterKey (List.replicate 64 122) ≠ some (sha256 (List.replicate 64 122)) := by
  refine ⟨by decide, ?_⟩
  intro h
  have h1 : getMasterKey (List.replicate 64 122) = some [] := by decide
  rw [h1] at h
  have h2 := congrArg List.length ((Option.some.injEq _ _).mp h)
  rw [sha256_length] at h2
  simp at h2

/-- C3 (amended): `getMasterKey` branches on the length of the secret alone —
a secret of exactly 64 characters is given to the hex decoder (unvalidated;
if all 64 characters are hex digits this is the direct 32-byte hex decoding),
and a secret of any other length is digested with SHA-256. -/
theorem C3_getMasterKey_branches (key : List Nat) (hne : key ≠ []) :
    (key.length = 64 → getMasterKey key = some (nodeHexDecode key)) ∧
    (key.length ≠ 64 → getMasterKey key = some (sha256 key)) ∧
    (key.length = 64 → (∀ c ∈ key, (hexVal c).isSome) →
      getMasterKey key = some (nodeHexDecode key) ∧ (nodeHexDecode key).length = 32) := by
  refine ⟨fun h64 => ?_, fun h64 => ?_, fun h64 hall => ?_⟩
  · rw [getMasterKey, if_neg hne, if_pos h64]
  · rw [getMasterKey, if_neg hne, if_neg h64]
  · refine ⟨by rw [getMasterKey, if_neg hne, if_pos h64], ?_⟩
    rw [nodeHexDecode_length hall (by omega), h64]

/-- Witness for C3 (amended): the 64-hex-character `ENCRYPT_KEY` documented in
`ENV_SETUP.md` decodes to 32 bytes, and a passphrase-style secret is hashed. -/
theorem C3_getMasterKey_branches_witness :
    (wHexKey ≠ [] ∧ wHexKey.length = 64 ∧ wPassKey ≠ [] ∧ wPassKey.length ≠ 64) ∧
    (getMasterKey wHexKey = some (nodeHexDecode wHexKey) ∧
      (nodeHexDecode wHexKey).length = 32) ∧
    getMasterKey wPassKey = some (sha256 wPassKey) :=
  ⟨⟨by decide, by decide, by decide, by decide⟩,
   (C3_getMasterKey_branches wHexKey (by decide)).2.2 (by decide) (by decide),
   (C3_getMasterKey_branches wPassKey (by decide)).2.1 (by decide)⟩

/-- C9: for an input of `n` bytes the outputs of `encryptFile` have fixed,
predictable sizes: the ciphertext is `16 * (n / 16 + 1)` bytes (PKCS#7 always
pads, so it is strictly longer than the input and a positive multiple of 16);
the base64 `encryptedKey` decodes to exactly 48 bytes and the base64
`encryptedIV` to exactly 32 bytes (the 32-byte FEK and the 16-byte IV, each
plus one 16-byte padding block). -/
theorem C9_output_sizes (C : BlockCipher) (mk fk iv buf : List Nat)
    (hfkl : fk.length = 32) (hfkB : ByteOk fk)
    (hivl : iv.length = 16) (hivB : ByteOk iv) (hbufB : ByteOk buf) :
    (encryptFile C mk fk iv buf).encryptedFile.length = 16 * (buf.length / 16 + 1) ∧
    buf.length < (encryptFile C mk fk iv buf).encryptedFile.length ∧
    (encryptFile C mk fk iv buf).encryptedFile.length % 16 = 0 ∧
    (b64decode (encryptFile C mk fk iv buf).encryptedKey).length = 48 ∧
    (b64decode (encryptFile C mk fk iv buf).encryptedIV).length = 32 := by
  have hkwl := encryptKeyEncryptionIV_length mk
  have hkwB := encryptKeyEncryptionIV_byteOk mk
  have hiwl := encryptIVEncryptionIV_length mk
  have hiwB := encryptIVEncryptionIV_byteOk mk
  have e1 : (encryptFile C mk fk iv buf).encryptedFile = cbcEncrypt C fk iv buf := rfl
  have e2 : (encryptFile C mk fk iv buf).encryptedKey =
      b64encode (cbcEncrypt C mk (encryptKeyEncryptionIV mk) fk) := rfl
  have e3 : (encryptFile C mk fk iv buf).encryptedIV =
      b64encode (cbcEncrypt C mk (encryptIVEncryptionIV mk) iv) := rfl
  refine ⟨?_, ?_, ?_, ?_, ?_⟩
  · rw [e1, cbcEncrypt_length C hivl hivB hbufB, pkcs7pad_length]
    omega
  · rw [e1, cbcEncrypt_length C hivl hivB hbufB, pkcs7pad_length]
    omega
  · rw [e1, cbcEncrypt_length C hivl hivB hbufB]
    exact pkcs7pad_length_mod buf
  · rw [e2, b64decode_b64encode (cbcEncrypt_byteOk C hkwl hkwB hfkB),
      cbcEncrypt_length C hkwl hkwB hfkB, pkcs7pad_length, hfkl]
  · rw [e3, b64decode_b64encode (cbcEncrypt_byteOk C hiwl hiwB hivB),
      cbcEncrypt_length C hiwl hiwB hivB, pkcs7pad_length, hivl]

/-- Witness for C9 on a 5-byte buffer: 16-byte ciphertext, 48-byte wrapped
key, 32-byte wrapped IV. -/
theorem C9_output_sizes_witness :
    (wFk.length = 32 ∧ ByteOk wFk ∧ wIv.length = 16 ∧ ByteOk wIv ∧ ByteOk wBuf) ∧
    ((encryptFile idBlockCipher wMk wFk wIv wBuf).encryptedFile.length =
        16 * (wBuf.length / 16 + 1) ∧
      wBuf.length < (encryptFile idBlockCipher wMk wFk wIv wBuf).encryptedFile.length ∧
      (encryptFile idBlockCipher wMk wFk wIv wBuf).encryptedFile.length % 16 = 0 ∧
      (b64decode (encryptFile idBlockCipher wMk wFk wIv wBuf).encryptedKey).length = 48 ∧
      (b64decode (encryptFile idBlockCipher wMk wFk wIv wBuf).encryptedIV).length = 32) :=
  ⟨⟨by decide, by decide, rfl, by decide, by decide⟩,
   C9_output_sizes idBlockCipher wMk wFk wIv wBuf (by decide) (by decide) rfl
     (by decide) (by decide)⟩

/-- C8 counterexample: the claim quantifies over all pairs of random draws that
differ; two calls drawing the same FEK but different IVs are such a pair, yet
the wrapping of the FEK is deterministic under the master key, so the two
`encryptedKey` outputs are identical, not different. -/
theorem C8_counterexample :
    (wFk, wIv) ≠ (wFk, wIv2) ∧
    (encryptFile idBlockCipher wMk wFk wIv wBuf).encryptedKey =
      (encryptFile idBlockCipher wMk wFk wIv2 wBuf).encryptedKey :=
  ⟨by decide, rfl⟩

/-- C8 (amended): freshness of the per-call randomness separates the outputs
componentwise — calls whose FEKs differ produce different `encryptedKey`,
calls whose IVs differ produce different `encryptedIV`, and calls with the
same FEK but different IVs produce different ciphertext; (calls that share the
FEK produce identical `encryptedKey`, since the wrap is deterministic). -/
theorem C8_fresh_randomness_distinct (C : BlockCipher) (mk buf : List Nat)
    (fk1 fk2 iv1 iv2 : List Nat)
    (hfk1B : ByteOk fk1) (hfk2B : ByteOk fk2)
    (hiv1l : iv1.length = 16) (hiv1B : ByteOk iv1)
    (hiv2l : iv2.length = 16) (hiv2B : ByteOk iv2)
    (hbufB : ByteOk buf) :
    (fk1 ≠ fk2 →
      (encryptFile C mk fk1 iv1 buf).encryptedKey ≠
        (encryptFile C mk fk2 iv2 buf).encryptedKey) ∧
    (iv1 ≠ iv2 →
      (encryptFile C mk fk1 iv1 buf).encryptedIV ≠
        (encryptFile C mk fk2 iv2 buf).encryptedIV) ∧
    (fk1 = fk2 → iv1 ≠ iv2 →
      (encryptFile C mk fk1 iv1 buf).encryptedFile ≠
        (encryptFile C mk fk2 iv2 buf).encryptedFile) := by
  have hkwl := encryptKeyEncryptionIV_length mk
  have hkwB := encryptKeyEncryptionIV_byteOk mk
  have hiwl := encryptIVEncryptionIV_length mk
  have hiwB := encryptIVEncryptionIV_byteOk mk
  refine ⟨fun hne heq => hne ?_, fun hne heq => hne ?_, fun hfe hne => ?_⟩
  · exact cbcEncrypt_inj C hkwl hkwB hfk1B hfk2B
      (b64encode_inj (cbcEncrypt_byteOk C hkwl hkwB hfk1B)
        (cbcEncrypt_byteOk C hkwl hkwB hfk2B) heq)
  · exact cbcEncrypt_inj C hiwl hiwB hiv1B hiv2B
      (b64encode_inj (cbcEncrypt_byteOk C hiwl hiwB hiv1B)
        (cbcEncrypt_byteOk C hiwl hiwB hiv2B) heq)
  · subst hfe
    exact cbcEncrypt_iv_ne C hiv1l hiv1B hiv2l hiv2B hbufB hne

/-- Witness for C8 (amended) at concrete diverging draws. -/
theorem C8_fresh_randomness_distinct_witness :
    ((encryptFile idBlockCipher wMk wFk wIv wBuf).encryptedKey ≠
      (encryptFile idBlockCipher wMk wFk2 wIv2 wBuf).encryptedKey) ∧
    ((encryptFile idBlockCipher wMk wFk wIv wBuf).encryptedIV ≠
      (encryptFile idBlockCipher wMk wFk2 wIv2 wBuf).encryptedIV) ∧
    ((encryptFile idBlockCipher wMk wFk wIv wBuf).encryptedFile ≠
      (encryptFile idBlockCipher wMk wFk wIv2 wBuf).encryptedFile) :=
  ⟨(C8_fresh_randomness_distinct idBlockCipher wMk wBuf wFk wFk2 wIv wIv2
      (by decide) (by decide) rfl (by decide) (by decide) (by decide) (by decide)).1
      (by decide),
   (C8_fresh_randomness_distinct idBlockCipher wMk wBuf wFk wFk2 wIv wIv2
      (by decide) (by decide) rfl (by decide) (by decide) (by decide) (by decide)).2.1
      (by decide),
   (C8_fresh_randomness_distinct idBlockCipher wMk wBuf wFk wFk wIv wIv2
      (by decide) (by decide) rfl (by decide) (by decide) (by decide) (by decide)).2.2
      rfl (by decide)⟩

/-- C2: for a download request by the owner of a document with
`requiresPIN = true` and a stored per-file PIN hash, the per-file-PIN download
handler's outcome is decided by `bcrypt.compare` against the per-file hash
alone: it proceeds to serve the decrypted file iff the supplied PIN matches the
per-file hash, and rejects 403 otherwise — the account-level hash (the `users`
table) is never consulted, so a PIN matching only the account-level hash is
denied. -/
theorem C2_per_file_pin_precedence (C : BlockCipher)
    (bcmp : String → String → Bool) (mk : List Nat) (docs : List Doc)
    (users : List User) (fs : String → Option (List Nat))
    (uid docId : Nat) (p : String) (document : Doc) (fileHash : String)
    (hfind : docs.find? (fun d => d.id == docId && d.userId == uid) = some document)
    (hreq : document.requiresPIN = true)
    (hhash : document.pinHash = some fileHash) (hfhne : fileHash ≠ "")
    (hpne : p ≠ "") :
    downloadSearchRoutes C bcmp mk docs users fs uid docId (some p) =
      (if bcmp p fileHash then downloadServeFile C mk fs document
       else .reject 403 "Invalid PIN for this file") := by
  have hptr := jsStrTruthy_some_of_ne hpne
  have hftr : jsStrTruthy document.pinHash = true := by
    rw [hhash]; exact jsStrTruthy_some_of_ne hfhne
  simp only [downloadSearchRoutes, hfind, hreq]
  rw [hhash]
  simp [hptr, jsStrTruthy_some_of_ne hfhne]

/-- Witness for C2: the correct per-file PIN (`1234`) serves the decrypted
bytes; the PIN matching only the owner's account hash (`9999`) is rejected. -/
theorem C2_per_file_pin_precedence_witness :
    downloadSearchRoutes idBlockCipher wBcmp wMk [wDocFile] [wUserAcct] wFs 10 1
      (some "1234") = .file wBuf ∧
    downloadSearchRoutes idBlockCipher wBcmp wMk [wDocFile] [wUserAcct] wFs 10 1
      (some "9999") = .reject 403 "Invalid PIN for this file" := by
  have h1 := C2_per_file_pin_precedence idBlockCipher wBcmp wMk [wDocFile]
    [wUserAcct] wFs 10 1 "1234" wDocFile "FILEHASH" rfl rfl rfl (by decide) (by decide)
  have h2 := C2_per_file_pin_precedence idBlockCipher wBcmp wMk [wDocFile]
    [wUserAcct] wFs 10 1 "9999" wDocFile "FILEHASH" rfl rfl rfl (by decide) (by decide)
  constructor
  · rw [h1, if_pos (show wBcmp "1234" "FILEHASH" = true from rfl)]
    exact wServeFile_eq
  · rw [h2, if_neg (show ¬wBcmp "9999" "FILEHASH" = true from by decide)]

/-- C5: a requester whose authenticated id differs from the document's owner id
receives, from both download handler generations, the same `404 File not found`
rejection as for a document that does not exist at all — regardless of the
supplied PIN — and the outcome is independent of the cipher, master key, blob
store and PIN-comparison oracle, so no decryption is performed. -/
theorem C5_not_owned_is_not_found (C : BlockCipher)
    (bcmp : String → String → Bool) (mk : List Nat) (docs : List Doc)
    (users : List User) (fs : String → Option (List Nat))
    (uid docId : Nat) (pin : Option String)
    (hnot : ∀ d ∈ docs, d.id = docId → d.userId ≠ uid) :
    downloadSearchRoutes C bcmp mk docs users fs uid docId pin =
      .reject 404 "File not found" ∧
    downloadFileRoutes C bcmp mk docs users fs uid docId pin =
      .reject 404 "File not found" ∧
    downloadSearchRoutes C bcmp mk [] users fs uid docId pin =
      .reject 404 "File not found" ∧
    downloadFileRoutes C bcmp mk [] users fs uid docId pin =
      .reject 404 "File not found" := by
  have hfind : docs.find? (fun d => d.id == docId && d.userId == uid) = none := by
    rw [List.find?_eq_none]
    intro d hd
    simp only [Bool.and_eq_true, beq_iff_eq, not_and]
    exact fun hid => hnot d hd hid
  refine ⟨?_, ?_, ?_, ?_⟩ <;>
    simp [downloadSearchRoutes, downloadFileRoutes, hfind, List.find?]

/-- Witness for C5: user 99 requesting user 10's document, with the correct
per-file PIN supplied, still gets the generic 404. -/
theorem C5_not_owned_is_not_found_witness :
    (∀ d ∈ [wDocFile], d.id = 1 → d.userId ≠ 99) ∧
    downloadSearchRoutes idBlockCipher wBcmp wMk [wDocFile] [wUserAcct] wFs 99 1
      (some "1234") = .reject 404 "File not found" ∧
    downloadSearchRoutes idBlockCipher wBcmp wMk [] [wUserAcct] wFs 99 1
      (some "1234") = .reject 404 "File not found" :=
  ⟨by decide,
   (C5_not_owned_is_not_found idBlockCipher wBcmp wMk [wDocFile] [wUserAcct] wFs
     99 1 (some "1234") (by decide)).1,
   (C5_not_owned_is_not_found idBlockCipher wBcmp wMk [wDocFile] [wUserAcct] wFs
     99 1 (some "1234") (by decide)).2.2.1⟩

/-- C6: for a document with `requiresPIN = true` and no per-file hash, the
per-file-PIN handler falls back to the owner's account PIN: if the account has
a hash, the request proceeds iff `bcrypt.compare` accepts the supplied PIN
against that hash; if the account row is missing or carries no hash, every
supplied PIN is rejected 403 — the check fails closed. -/
theorem C6_account_pin_fallback (C : BlockCipher)
    (bcmp : String → String → Bool) (mk : List Nat) (docs : List Doc)
    (users : List User) (fs : String → Option (List Nat))
    (uid docId : Nat) (p : String) (document : Doc)
    (hfind : docs.find? (fun d => d.id == docId && d.userId == uid) = some document)
    (hreq : document.requiresPIN = true)
    (hnohash : document.pinHash = none)
    (hpne : p ≠ "") :
    (users.find? (fun u => u.id == uid) = none →
      downloadSearchRoutes C bcmp mk docs users fs uid docId (some p) =
        .reject 403 "User not found") ∧
    (∀ user, users.find? (fun u => u.id == uid) = some user →
      user.pinHash = none →
      downloadSearchRoutes C bcmp mk docs users fs uid docId (some p) =
        .reject 403 "Invalid PIN") ∧
    (∀ user accountHash, users.find? (fun u => u.id == uid) = some user →
      user.pinHash = some accountHash → accountHash ≠ "" →
      downloadSearchRoutes C bcmp mk docs users fs uid docId (some p) =
        (if bcmp p accountHash then downloadServeFile C mk fs document
         else .reject 403 "Invalid PIN")) := by
  have hpe := isEmpty_false_of_ne hpne
  refine ⟨fun huser => ?_, fun user huser hupin => ?_,
    fun user accountHash huser hupin hane => ?_⟩
  · simp only [downloadSearchRoutes, hfind, hreq]
    rw [hnohash]
    simp [jsStrTruthy, hpe, huser]
  · simp only [downloadSearchRoutes, hfind, hreq]
    rw [hnohash]
    simp [jsStrTruthy, hpe, huser, comparePIN, hupin]
  · simp only [downloadSearchRoutes, hfind, hreq]
    rw [hnohash]
    simp [jsStrTruthy, hpe, huser, comparePIN, hupin, isEmpty_false_of_ne hane]

/-- Witness for C6: with no per-file hash, the account PIN (`9999`) serves the
file, a wrong PIN is rejected, and an account without a hash rejects every
PIN. -/
theorem C6_account_pin_fallback_witness :
    downloadSearchRoutes idBlockCipher wBcmp wMk [wDocNoHash] [wUserAcct] wFs 10 2
      (some "9999") = .file wBuf ∧
    downloadSearchRoutes idBlockCipher wBcmp wMk [wDocNoHash] [wUserAcct] wFs 10 2
      (some "1234") = .reject 403 "Invalid PIN" ∧
    downloadSearchRoutes idBlockCipher wBcmp wMk [wDocNoHash] [wUserNoPin] wFs 10 2
      (some "9999") = .reject 403 "Invalid PIN" := by
  have h1 := (C6_account_pin_fallback idBlockCipher wBcmp wMk [wDocNoHash]
    [wUserAcct] wFs 10 2 "9999" wDocNoHash rfl rfl rfl (by decide)).2.2
    wUserAcct "ACCTHASH" rfl rfl (by decide)
  have h2 := (C6_account_pin_fallback idBlockCipher wBcmp wMk [wDocNoHash]
    [wUserAcct] wFs 10 2 "1234" wDocNoHash rfl rfl rfl (by decide)).2.2
    wUserAcct "ACCTHASH" rfl rfl (by decide)
  have h3 := (C6_account_pin_fallback idBlockCipher wBcmp wMk [wDocNoHash]
    [wUserNoPin] wFs 10 2 "9999" wDocNoHash rfl rfl rfl (by decide)).2.1
    wUserNoPin rfl rfl
  refine ⟨?_, ?_, h3⟩
  · rw [h1, if_pos (show wBcmp "9999" "ACCTHASH" = true from rfl)]
    exact wServeFileNoHash_eq
  · rw [h2, if_neg (show ¬wBcmp "1234" "ACCTHASH" = true from by decide)]

/-- C4 counterexample: in the `fileRoutes.js` download handler an invalid
account PIN — a PIN-related authorization denial — is surfaced with status 401
(`Invalid PIN`), not 403 (and a missing account hash with 400), so not every
PIN-related denial carries status 403. -/
theorem C4_counterexample :
    downloadFileRoutes idBlockCipher wBcmp wMk [wDocFile] [wUserAcct] wFs 10 1
      (some "1111") = .reject 401 "Invalid PIN" ∧ (401 : Nat) ≠ 403 :=
  ⟨by decide, by decide⟩

/-- C4 (amended): in the per-file-PIN download handler every rejection is
either a 403 carrying one of the four PIN-denial messages, a 404 carrying one
of the two not-found messages, or the 500 of a decryption failure — an
authorization denial is never surfaced as a 500.  (The `fileRoutes.js` variant
instead uses 400/401 for its account-PIN denials, per the counterexample.) -/
theorem C4_denial_status_codes (C : BlockCipher)
    (bcmp : String → String → Bool) (mk : List Nat) (docs : List Doc)
    (users : List User) (fs : String → Option (List Nat))
    (uid docId : Nat) (pin : Option String) (s : Nat) (m : String)
    (h : downloadSearchRoutes C bcmp mk docs users fs uid docId pin =
      .reject s m) :
    (s = 403 ∧ (m = "PIN required to download this file" ∨
                m = "Invalid PIN for this file" ∨
                m = "User not found" ∨ m = "Invalid PIN")) ∨
    (s = 404 ∧ (m = "File not found" ∨ m = "File not found on server")) ∨
    (s = 500 ∧ m = "File decryption failed") := by
  unfold downloadSearchRoutes downloadServeFile at h
  repeat' split at h
  all_goals simp_all

/-- Witness for C4 (amended): an invalid-per-file-PIN denial instantiates the
403 disjunct. -/
theorem C4_denial_status_codes_witness :
    downloadSearchRoutes idBlockCipher wBcmp wMk [wDocFile] [wUserAcct] wFs 10 1
      (some "9999") = .reject 403 "Invalid PIN for this file" ∧
    ((403 = 403 ∧ ("Invalid PIN for this file" = "PIN required to download this file" ∨
                   "Invalid PIN for this file" = "Invalid PIN for this file" ∨
                   "Invalid PIN for this file" = "User not found" ∨
                   "Invalid PIN for this file" = "Invalid PIN")) ∨
     (403 = 404 ∧ ("Invalid PIN for this file" = "File not found" ∨
                   "Invalid PIN for this file" = "File not found on server")) ∨
     (403 = 500 ∧ "Invalid PIN for this file" = "File decryption failed")) :=
  ⟨by decide,
   C4_denial_status_codes idBlockCipher wBcmp wMk [wDocFile] [wUserAcct] wFs 10 1
     (some "9999") 403 "Invalid PIN for this file" (by decide)⟩

/-- C10: the file-listing and metadata endpoints never reveal key material or
storage location — for any two document tables that agree row-by-row on
everything except `encryptedKey`, `encryptedIV`, `filePath` and `pinHash`, the
responses of both generations' `GET /` and of `GET /:id` are identical, so
those columns influence no listing/metadata response and are consumed only by
the download handler. -/
theorem C10_listing_excludes_secrets {ds1 ds2 : List Doc}
    (h : List.Forall₂ SameExceptSecrets ds1 ds2) (uid docId : Nat)
    (category tag : Option String) :
    listFilesSearchRoutes ds1 uid category tag =
      listFilesSearchRoutes ds2 uid category tag ∧
    getFileSearchRoutes ds1 uid docId = getFileSearchRoutes ds2 uid docId ∧
    listFilesFileRoutes ds1 uid category tag =
      listFilesFileRoutes ds2 uid category tag := by
  refine ⟨?_, ?_, ?_⟩
  · unfold listFilesSearchRoutes
    exact congrArg _ (forall₂_filter_map h
      (fun a b hab => sameExceptSecrets_matches hab uid category tag)
      (fun a b hab => sameExceptSecrets_toPublicDoc hab))
  · unfold getFileSearchRoutes
    exact forall₂_find_map h
      (fun a b hab => sameExceptSecrets_findPred hab uid docId)
      (fun a b hab => sameExceptSecrets_toPublicDoc hab)
  · unfold listFilesFileRoutes
    exact congrArg _ (forall₂_filter_map h
      (fun a b hab => sameExceptSecrets_matches hab uid category tag)
      (fun a b hab => sameExceptSecrets_toPublicDocV1 hab))

/-- Witness for C10: two tables whose single rows differ exactly in
`encryptedKey`, `encryptedIV`, `filePath` and `pinHash` yield identical
listing and metadata responses. -/
theorem C10_listing_excludes_secrets_witness :
    List.Forall₂ SameExceptSecrets [wDocFile] [wDocFileAlt] ∧
    listFilesSearchRoutes [wDocFile] 10 none none =
      listFilesSearchRoutes [wDocFileAlt] 10 none none ∧
    getFileSearchRoutes [wDocFile] 10 1 = getFileSearchRoutes [wDocFileAlt] 10 1 ∧
    listFilesFileRoutes [wDocFile] 10 none none =
      listFilesFileRoutes [wDocFileAlt] 10 none none :=
  have hf : List.Forall₂ SameExceptSecrets [wDocFile] [wDocFileAlt] :=
    List.Forall₂.cons ⟨rfl, rfl, rfl, rfl, rfl, rfl, rfl, rfl, rfl, rfl, rfl⟩
      List.Forall₂.nil
  ⟨hf, (C10_listing_excludes_secrets hf 10 1 none none).1,
   (C10_listing_excludes_secrets hf 10 1 none none).2.1,
   (C10_listing_excludes_secrets hf 10 1 none none).2.2⟩
